import Mathlib

/-!
Verification development for the Briefly retrieval engine
(`src/server/vector_store.py`).

Python functions are shallowly embedded as Lean definitions: machine
integers become `Int`/`Nat`, fallible code returns `Except`, the unbounded
`while` loop of `chunk_text` is modelled with explicit fuel (`none` means
the loop did not finish within the given fuel), and the effectful
orchestrator `build_vector_index` is modelled by explicit state passing
over an environment record that fixes the outcomes of its I/O actions.
-/

namespace VectorStore

/-! ### Tokenisation: `re.findall(r"\S+", text)`
Maximal runs of non-whitespace characters, in order. -/

def tokenizeAux : List Char → List Char → List String
  | cur, [] => if cur.isEmpty then [] else [String.mk cur.reverse]
  | cur, c :: rest =>
    if c.isWhitespace then
      if cur.isEmpty then tokenizeAux [] rest
      else String.mk cur.reverse :: tokenizeAux [] rest
    else tokenizeAux (c :: cur) rest

def tokenize (s : String) : List String := tokenizeAux [] s.toList

/-! ### Python list slicing
`chunk = tokens[start:end]` in `chunk_text` uses Python slice semantics:
negative indices wrap around (clamped at 0), and both bounds are clamped
to the list length. -/

def pyNorm (n : Nat) (i : Int) : Nat :=
  if i < 0 then (i + n).toNat else min i.toNat n

def pySlice {α : Type} (l : List α) (a b : Int) : List α :=
  (l.take (pyNorm l.length b)).drop (pyNorm l.length a)

/-! ### `ChromaVectorStore.chunk_text`
The `while start < len(tokens)` loop, with fuel.  `start` is an `Int`
because Python's `start += chunk_size - overlap` can drive it negative
when `overlap > chunk_size`. -/

def chunkGo (tokens : List String) (chunk_size overlap : Nat) :
    Nat → Int → Option (List (List String))
  | 0, _ => none
  | fuel + 1, start =>
    if start < (tokens.length : Int) then
      let e := min (start + chunk_size) (tokens.length : Int)
      let chunk := pySlice tokens start e
      if e = (tokens.length : Int) then some [chunk]
      else
        match chunkGo tokens chunk_size overlap fuel
            (start + ((chunk_size : Int) - (overlap : Int))) with
        | some rest => some (chunk :: rest)
        | none => none
    else some []

/-- `" ".join(...)` on the character level. -/
def joinSpChars : List (List Char) → List Char
  | [] => []
  | [w] => w
  | w :: w' :: ws => w ++ ' ' :: joinSpChars (w' :: ws)

/-- `" ".join(tokens[start:end])`. -/
def joinSp (ts : List String) : String :=
  String.mk (joinSpChars (ts.map String.toList))

/-- `chunk_text`: the token-level chunks produced by the loop, each joined
with single spaces.  `none` when the loop does not terminate within `fuel`
iterations. -/
def chunk_text (text : String) (chunk_size : Nat := 500) (overlap : Nat := 100)
    (fuel : Nat := (tokenize text).length + 1) : Option (List String) :=
  (chunkGo (tokenize text) chunk_size overlap fuel 0).map (List.map joinSp)

/-! ### Chunker lemmas -/

theorem pySlice_eq_drop_take {α : Type} (l : List α) (a b : Int)
    (ha : 0 ≤ a) (hab : a ≤ b) (hb : b ≤ (l.length : Int)) :
    pySlice l a b = (l.drop a.toNat).take (b.toNat - a.toNat) := by
  unfold pySlice pyNorm
  rw [if_neg (by omega), if_neg (by omega)]
  rw [min_eq_left (by omega), min_eq_left (by omega)]
  rw [List.drop_take]

theorem chunkGo_head (tokens : List String) (cs ov : Nat) (fuel : Nat)
    (start : Int) (l : List (List String))
    (h : chunkGo tokens cs ov fuel start = some l)
    (hlt : start < (tokens.length : Int)) :
    ∃ rest, l =
      pySlice tokens start (min (start + cs) (tokens.length : Int)) :: rest := by
  cases fuel with
  | zero => simp [chunkGo] at h
  | succ f =>
    rw [chunkGo, if_pos hlt] at h
    by_cases he : min (start + (cs : Int)) (tokens.length : Int) =
        (tokens.length : Int)
    · rw [if_pos he] at h
      exact ⟨[], by simpa using h.symm⟩
    · rw [if_neg he] at h
      cases hrec : chunkGo tokens cs ov f (start + ((cs : Int) - (ov : Int))) with
      | none => rw [hrec] at h; simp at h
      | some rest =>
        rw [hrec] at h
        exact ⟨rest, by simpa using h.symm⟩

theorem chunkGo_chain (tokens : List String) (cs ov : Nat) (hov : ov < cs) :
    ∀ (fuel : Nat) (start : Int) (l : List (List String)), 0 ≤ start →
      chunkGo tokens cs ov fuel start = some l →
      List.Chain' (fun a b => a.drop (a.length - ov) = b.take ov) l := by
  intro fuel
  induction fuel with
  | zero => intro start l _ h; simp [chunkGo] at h
  | succ f ih =>
    intro start l hstart h
    rw [chunkGo] at h
    by_cases hlt : start < (tokens.length : Int)
    · rw [if_pos hlt] at h
      by_cases he : min (start + (cs : Int)) (tokens.length : Int) =
          (tokens.length : Int)
      · rw [if_pos he] at h
        simp only [Option.some.injEq] at h
        subst h
        simp
      · rw [if_neg he] at h
        cases hrec : chunkGo tokens cs ov f (start + ((cs : Int) - (ov : Int))) with
        | none => rw [hrec] at h; simp at h
        | some rest =>
          rw [hrec] at h
          simp only [Option.some.injEq] at h
          subst h
          have hcs_lt : start + (cs : Int) < (tokens.length : Int) := by omega
          have hstart' : (0 : Int) ≤ start + ((cs : Int) - (ov : Int)) := by omega
          have hchain := ih _ rest hstart' hrec
          rw [List.chain'_cons']
          refine ⟨?_, hchain⟩
          intro b hb
          -- b is the head of rest; rest starts at start + (cs - ov) < length
          have hlt' : start + ((cs : Int) - (ov : Int)) < (tokens.length : Int) := by
            omega
          obtain ⟨rest', hrest⟩ := chunkGo_head tokens cs ov f _ rest hrec hlt'
          subst hrest
          simp only [List.head?_cons, Option.mem_def, Option.some.injEq] at hb
          subst hb
          -- now compute both sides as segments of `tokens`
          set n : Nat := tokens.length with hn
          set s : Nat := start.toNat with hs
          have hmin : min (start + (cs : Int)) (n : Int) = start + cs := by omega
          have hc1 : (start + (cs : Int)).toNat - start.toNat = cs := by omega
          have h1 : pySlice tokens start (min (start + (cs : Int)) (n : Int)) =
              (tokens.drop s).take cs := by
            rw [hmin, pySlice_eq_drop_take tokens start (start + cs) hstart
              (by omega) (by omega), hc1]
          have hlen1 : ((tokens.drop s).take cs).length = cs := by
            rw [List.length_take, List.length_drop]
            omega
          have hsn : (start + ((cs : Int) - (ov : Int))).toNat = s + (cs - ov) := by
            omega
          have h2 : pySlice tokens (start + ((cs : Int) - (ov : Int)))
              (min (start + ((cs : Int) - (ov : Int)) + (cs : Int)) (n : Int)) =
              (tokens.drop (s + (cs - ov))).take
                ((min (start + ((cs : Int) - (ov : Int)) + (cs : Int))
                  (n : Int)).toNat - (s + (cs - ov))) := by
            rw [pySlice_eq_drop_take tokens _ _ hstart' (by omega) (by omega), hsn]
          rw [h1, h2, hlen1]
          rw [List.take_take]
          rw [List.drop_take, List.drop_drop]
          have harith : cs - (cs - ov) = ov := by omega
          rw [harith]
          have hge : ov ≤ (min (start + ((cs : Int) - (ov : Int)) + (cs : Int))
              (n : Int)).toNat - (s + (cs - ov)) := by omega
          rw [min_eq_left hge]
    · rw [if_neg hlt] at h
      simp only [Option.some.injEq] at h
      subst h
      simp

/-! ### Tokens of a joined chunk
`chunk_text` joins whitespace-free, nonempty tokens with single spaces, so
re-tokenising a chunk recovers exactly its token list. -/

/-- A token produced by `\S+` matching: nonempty, no whitespace characters. -/
def goodToken (t : String) : Prop :=
  t.toList ≠ [] ∧ ∀ c ∈ t.toList, ¬c.isWhitespace = true

theorem mk_toList (s : String) : String.mk s.toList = s := rfl

theorem tokenizeAux_no_ws_word (w : List Char)
    (hw : ∀ c ∈ w, ¬c.isWhitespace = true) :
    ∀ (cur rest : List Char),
      tokenizeAux cur (w ++ rest) = tokenizeAux (w.reverse ++ cur) rest := by
  induction w with
  | nil => intro cur rest; simp
  | cons c w' ih =>
    intro cur rest
    have hc : ¬c.isWhitespace = true := hw c (by simp)
    rw [List.cons_append, tokenizeAux, if_neg hc]
    rw [ih (fun x hx => hw x (by simp [hx])) (c :: cur) rest]
    simp

theorem tokenizeAux_ws_cons (cur rest : List Char) (h : cur ≠ []) :
    tokenizeAux cur (' ' :: rest) =
      String.mk cur.reverse :: tokenizeAux [] rest := by
  rw [tokenizeAux, if_pos (by decide)]
  rw [if_neg (by simp [h])]

theorem tokenize_joinSpChars :
    ∀ ws : List (List Char),
      (∀ w ∈ ws, w ≠ [] ∧ ∀ c ∈ w, ¬c.isWhitespace = true) →
      tokenizeAux [] (joinSpChars ws) = ws.map (fun w => String.mk w) := by
  intro ws
  induction ws with
  | nil => intro _; rfl
  | cons w ws ih =>
    intro hgood
    obtain ⟨hw, hwc⟩ := hgood w (by simp)
    cases ws with
    | nil =>
      have h1 := tokenizeAux_no_ws_word w hwc [] []
      simp only [List.append_nil] at h1
      simp only [joinSpChars, h1, tokenizeAux]
      rw [if_neg (by simp [hw])]
      simp
    | cons w' ws' =>
      have h1 := tokenizeAux_no_ws_word w hwc [] (' ' :: joinSpChars (w' :: ws'))
      simp only [List.append_nil] at h1
      simp only [joinSpChars, h1]
      rw [tokenizeAux_ws_cons _ _ (by simp [hw])]
      rw [ih (fun u hu => hgood u (by simp [hu]))]
      simp

theorem tokenize_joinSp (ts : List String) (h : ∀ t ∈ ts, goodToken t) :
    tokenize (joinSp ts) = ts := by
  show tokenizeAux [] (String.mk (joinSpChars (ts.map String.toList))).toList = ts
  rw [show (String.mk (joinSpChars (ts.map String.toList))).toList =
    joinSpChars (ts.map String.toList) from rfl]
  rw [tokenize_joinSpChars _ (by
    intro w hw
    simp only [List.mem_map] at hw
    obtain ⟨t, ht, rfl⟩ := hw
    exact (h t ht))]
  rw [List.map_map]
  have : ∀ t ∈ ts, (String.mk ∘ String.toList) t = id t := fun t _ => mk_toList t
  rw [List.map_congr_left this, List.map_id]

theorem tokenizeAux_good :
    ∀ (l cur : List Char), (∀ c ∈ cur, ¬c.isWhitespace = true) →
      ∀ t ∈ tokenizeAux cur l, goodToken t := by
  intro l
  induction l with
  | nil =>
    intro cur hcur t ht
    rw [tokenizeAux] at ht
    by_cases hc : cur.isEmpty = true
    · rw [if_pos hc] at ht; simp at ht
    · rw [if_neg hc] at ht
      simp only [List.mem_singleton] at ht
      subst ht
      constructor
      · simp only [ne_eq]
        intro hnil
        have : cur = [] := by
          have := congrArg List.reverse hnil
          simpa using this
        simp [this] at hc
      · intro c hc'
        exact hcur c (by
          have : c ∈ cur.reverse := hc'
          simpa using this)
  | cons c l ih =>
    intro cur hcur t ht
    rw [tokenizeAux] at ht
    by_cases hc : c.isWhitespace = true
    · rw [if_pos hc] at ht
      by_cases hcur' : cur.isEmpty = true
      · rw [if_pos hcur'] at ht
        exact ih [] (by simp) t ht
      · rw [if_neg hcur'] at ht
        rcases List.mem_cons.mp ht with h1 | h1
        · subst h1
          constructor
          · simp only [ne_eq]
            intro hnil
            have : cur = [] := by
              have := congrArg List.reverse hnil
              simpa using this
            simp [this] at hcur'
          · intro x hx
            exact hcur x (by
              have : x ∈ cur.reverse := hx
              simpa using this)
        · exact ih [] (by simp) t h1
    · rw [if_neg hc] at ht
      exact ih (c :: cur)
        (by intro x hx; rcases List.mem_cons.mp hx with h1 | h1
            · subst h1; exact hc
            · exact hcur x h1) t ht

theorem tokenize_good (s : String) : ∀ t ∈ tokenize s, goodToken t :=
  tokenizeAux_good s.toList [] (by simp)

theorem chunkGo_mem (tokens : List String) (cs ov : Nat) :
    ∀ (fuel : Nat) (start : Int) (l : List (List String)),
      chunkGo tokens cs ov fuel start = some l →
      ∀ c ∈ l, ∀ t ∈ c, t ∈ tokens := by
  intro fuel
  have hsub : ∀ (a b : Int) (t : String), t ∈ pySlice tokens a b → t ∈ tokens := by
    intro a b t ht
    exact List.take_subset _ _ (List.drop_subset _ _ ht)
  induction fuel with
  | zero => intro start l h; simp [chunkGo] at h
  | succ f ih =>
    intro start l h c hc t ht
    rw [chunkGo] at h
    by_cases hlt : start < (tokens.length : Int)
    · rw [if_pos hlt] at h
      by_cases he : min (start + (cs : Int)) (tokens.length : Int) =
          (tokens.length : Int)
      · rw [if_pos he] at h
        simp only [Option.some.injEq] at h
        subst h
        simp only [List.mem_singleton] at hc
        subst hc
        exact hsub _ _ t ht
      · rw [if_neg he] at h
        cases hrec : chunkGo tokens cs ov f (start + ((cs : Int) - (ov : Int))) with
        | none => rw [hrec] at h; simp at h
        | some rest =>
          rw [hrec] at h
          simp only [Option.some.injEq] at h
          subst h
          rcases List.mem_cons.mp hc with h1 | h1
          · subst h1; exact hsub _ _ t ht
          · exact ih _ rest hrec c h1 t ht
    · rw [if_neg hlt] at h
      simp only [Option.some.injEq] at h
      subst h
      simp at hc

/-! ### Claims C5 and C6 -/

/-- **C5** — Chunker overlap invariant: for every text and every
configuration with `chunk_size > overlap ≥ 0`, in the chunk list returned
by `chunk_text` every pair of consecutive chunks shares exactly `overlap`
tokens: the last `overlap` tokens of `chunk[i]` equal the first `overlap`
tokens of `chunk[i+1]` (proved for *all* consecutive pairs, which covers
the claim's "except possibly the last" allowance). -/
theorem c5_chunker_overlap_invariant (text : String)
    (chunk_size overlap fuel : Nat) (chunks : List String)
    (hov : overlap < chunk_size)
    (hrun : chunk_text text chunk_size overlap fuel = some chunks) :
    List.Chain' (fun a b =>
      (tokenize a).drop ((tokenize a).length - overlap) =
        (tokenize b).take overlap) chunks := by
  unfold chunk_text at hrun
  cases hgo : chunkGo (tokenize text) chunk_size overlap fuel 0 with
  | none => rw [hgo] at hrun; simp at hrun
  | some chunksT =>
    rw [hgo] at hrun
    simp only [Option.map_some', Option.some.injEq] at hrun
    subst hrun
    have hchain := chunkGo_chain (tokenize text) chunk_size overlap hov fuel 0
      chunksT (le_refl 0) hgo
    have hmem := chunkGo_mem (tokenize text) chunk_size overlap fuel 0 chunksT hgo
    have hround : ∀ c ∈ chunksT, tokenize (joinSp c) = c := by
      intro c hc
      exact tokenize_joinSp c (fun t ht => tokenize_good text t (hmem c hc t ht))
    rw [List.chain'_map]
    rw [List.chain'_iff_get] at hchain ⊢
    intro i hi
    have h1 := hchain i hi
    rw [hround _ (List.get_mem _ _ _), hround _ (List.get_mem _ _ _)]
    exact h1

/-- Witness for C5 at a concrete run: text `"a b c d e"`, `chunk_size = 2`,
`overlap = 1`. -/
theorem c5_chunker_overlap_invariant_witness :
    (1 : Nat) < 2 ∧ List.Chain' (fun a b =>
      (tokenize a).drop ((tokenize a).length - 1) = (tokenize b).take 1)
      ["a b", "b c", "c d", "d e"] :=
  ⟨by decide, c5_chunker_overlap_invariant "a b c d e" 2 1 6
    ["a b", "b c", "c d", "d e"] (by decide) (by decide)⟩

/-- With `chunk_size = overlap` the advance `chunk_size - overlap` is zero,
so on a token list longer than `chunk_size` the loop revisits `start = 0`
forever. -/
theorem chunkGo_zero_step_none :
    ∀ fuel : Nat, chunkGo ["a", "b", "c"] 2 2 fuel 0 = none := by
  intro fuel
  induction fuel with
  | zero => rfl
  | succ f ih =>
    rw [chunkGo]
    norm_num
    rw [ih]

/-- **C6** — the claim says chunking is guarded against `overlap ≥
chunk_size` (advance clamped, or configuration rejected) so that
`chunk_text` terminates.  The code has no such guard: on the concrete
input `"a b c"` with `chunk_size = overlap = 2` the loop never advances,
and `chunk_text` fails to terminate within any amount of fuel.  This
contradicts the spec's own edge-case policy, so the code is the bug. -/
theorem c6_chunker_not_guarded :
    ∀ fuel : Nat, chunk_text "a b c" 2 2 fuel = none := by
  intro fuel
  have ht : tokenize "a b c" = ["a", "b", "c"] := by decide
  unfold chunk_text
  rw [ht, chunkGo_zero_step_none fuel]
  rfl

/-! ### `FileCache` and the indexing orchestrator `build_vector_index`

The orchestrator performs I/O (filesystem walk, hashing, extraction,
embedding, locking); it is embedded as a function over an environment
record that fixes every I/O outcome, with the mutable store and the
persisted cache passed as explicit state. -/

/-- `FileCache.get_hash`: `self.data.get(filepath, {}).get("hash", "")`.
The cache is a flat path → hash mapping (the source also stores a
`chunk_count` alongside, which is never read). -/
def getHash (cache : List (String × String)) (path : String) : String :=
  ((cache.find? (fun e => e.1 == path)).map Prod.snd).getD ""

/-- `FileCache.update_hash` — present in the source but never invoked from
`build_vector_index` (or anywhere else in the repository). -/
def updateHash (cache : List (String × String)) (path hash : String) :
    List (String × String) :=
  (path, hash) :: cache.filter (fun e => !(e.1 == path))

/-- Outcome of the per-file `try` block of `build_vector_index`:
`raises` — an exception while reading/extracting (caught, logged, loop
continues); `skipped` — the explicit `continue` for unsupported or legacy
formats; `content s` — successful extraction of `s`. -/
inductive ExtractOutcome where
  | raises
  | skipped
  | content (s : String)
deriving DecidableEq

/-- One filesystem entry yielded by `folder.rglob('*')` together with the
outcome of the I/O performed on it: `hash` is what `FileCache.compute_hash`
returns (`""` when hashing raises). -/
structure FileInfo where
  path : String
  hash : String
  extract : ExtractOutcome
deriving DecidableEq

/-- `content and content.strip()`: content is nonempty and not all
whitespace. -/
def nonblank (s : String) : Bool := s.toList.any (fun c => !c.isWhitespace)

/-- The per-file loop of `build_vector_index`: a file is skipped iff
`force_rebuild` is false and the cached hash equals the computed hash;
otherwise it is processed (extraction attempted; per-file exceptions are
caught and the loop continues).  Returns the collected `texts` in walk
order, and the number of files that were not skipped by the cache check. -/
def walkFiles (force : Bool) (cache : List (String × String)) :
    List FileInfo → List String × Nat
  | [] => ([], 0)
  | fi :: rest =>
    if force = false ∧ getHash cache fi.path = fi.hash then
      walkFiles force cache rest
    else
      let tp := walkFiles force cache rest
      match fi.extract with
      | .raises => (tp.1, tp.2 + 1)
      | .skipped => (tp.1, tp.2 + 1)
      | .content c =>
        (if nonblank c then c :: tp.1 else tp.1, tp.2 + 1)

/-- Environment fixing the I/O outcomes of one `build_vector_index`
invocation: ML-library availability, folder existence, the walked files,
and whether `reset_collection`, the lock acquisition, and the batched
`add_documents` (embedding + collection add) succeed. -/
structure BuildEnv where
  mlAvailable : Bool
  folderExists : Bool
  files : List FileInfo
  resetOk : Bool
  lockOk : Bool
  addOk : Bool
deriving DecidableEq

/-- The mutable state `build_vector_index` can touch: the Vector Index
Store's documents (each added text is subsequently chunked into ≥ 1
chunk, so the collection's document count grows strictly with each added
text) and the persisted `FileCache` contents. -/
structure StoreState where
  docs : List String
  cache : List (String × String)
deriving DecidableEq

structure BuildResult where
  ok : Bool
  processed : Nat
  state : StoreState
deriving DecidableEq

/-- `build_vector_index(folder_path, force_rebuild)`:
1. bail out if ML libraries are unavailable;
2. on `force_rebuild`, reset the collection and clear + save the cache
   (before any validation);
3. fail if the folder does not exist;
4. walk the files, applying the cache skip rule and per-file extraction
   (per-file exceptions caught);
5. fail if no non-blank texts were collected;
6. fail if the global lock cannot be acquired within the timeout;
7. add the collected documents in one batch (chunk/embed/add); an
   exception there is caught by the outer handler and fails the job.
Note the walk never writes the cache: `FileCache.update_hash` and a
post-embedding `save()` are absent from the source. -/
def build_vector_index (env : BuildEnv) (force : Bool) (init : StoreState) :
    BuildResult :=
  if env.mlAvailable = false then ⟨false, 0, init⟩
  else
    let s1 : StoreState :=
      if force then
        { docs := if env.resetOk then [] else init.docs, cache := [] }
      else init
    if env.folderExists = false then ⟨false, 0, s1⟩
    else
      let tp := walkFiles force s1.cache env.files
      if tp.1.isEmpty then ⟨false, tp.2, s1⟩
      else if env.lockOk = false then ⟨false, tp.2, s1⟩
      else if env.addOk then ⟨true, tp.2, { s1 with docs := s1.docs ++ tp.1 }⟩
      else ⟨false, tp.2, s1⟩

/-! ### Claims C1–C4 -/

/-- An unchanged folder with one readable text file, all I/O succeeding. -/
def c1Env : BuildEnv :=
  { mlAvailable := true, folderExists := true,
    files := [{ path := "a.txt", hash := "h1", extract := .content "hello" }],
    resetOk := true, lockOk := true, addOk := true }

/-- **C1** — the claim (and spec) says the file-hash cache entry is updated
after a file is successfully embedded, so a second `build_vector_index`
run on an unchanged folder with `force_rebuild = false` processes zero
files and leaves the document count unchanged.  The code never calls
`FileCache.update_hash` (nor `save()` outside the force-rebuild branch),
so the second run re-processes every file and adds its documents again:
here the one unchanged file is processed again (`processed = 1`, not `0`)
and the store's document list doubles. -/
theorem c1_cache_idempotence_violated :
    (build_vector_index c1Env false ⟨[], []⟩).ok = true ∧
    (build_vector_index c1Env false ⟨[], []⟩).processed = 1 ∧
    (build_vector_index c1Env false ⟨[], []⟩).state.docs = ["hello"] ∧
    (build_vector_index c1Env false
        (build_vector_index c1Env false ⟨[], []⟩).state).processed = 1 ∧
    (build_vector_index c1Env false
        (build_vector_index c1Env false ⟨[], []⟩).state).state.docs =
      ["hello", "hello"] := by decide

/-- A single readable file with no cache entry, all I/O succeeding. -/
def c4Env : BuildEnv :=
  { mlAvailable := true, folderExists := true,
    files := [{ path := "b.md", hash := "h2", extract := .content "world" }],
    resetOk := true, lockOk := true, addOk := true }

/-- **C4** — the skip rule itself matches the code (`walkFiles` skips a
file iff `force_rebuild` is false and the computed hash equals the cached
hash), but the claim's final clause "its cache entry is updated" does not:
after a successful run that processed the file `b.md`, the persisted cache
still has no entry for it (`FileCache.update_hash` is never invoked), so
the hash lookup still returns `""` ≠ `"h2"`. -/
theorem c4_cache_update_missing :
    (build_vector_index c4Env false ⟨[], []⟩).ok = true ∧
    (build_vector_index c4Env false ⟨[], []⟩).processed = 1 ∧
    (build_vector_index c4Env false ⟨[], []⟩).state.cache = [] ∧
    getHash (build_vector_index c4Env false ⟨[], []⟩).state.cache "b.md" = "" ∧
    updateHash [] "b.md" "h2" ≠ [] := by decide

/-- One readable file; the batched embed/add under the lock raises. -/
def c2Env : BuildEnv :=
  { mlAvailable := true, folderExists := true,
    files := [{ path := "x.txt", hash := "h", extract := .content "text here" }],
    resetOk := true, lockOk := true, addOk := false }

/-- **C2 counterexample** — the claim says `build_vector_index` reports
failure *only* if the initiating walk errors or the lock cannot be
acquired.  Here the folder exists, the walk succeeds, and the lock is
acquired, yet the job fails because the batched chunk/embed/add raised:
embedding exceptions are not per-file-isolated, they fail the whole job. -/
theorem c2_failure_beyond_walk_and_lock :
    (build_vector_index c2Env false ⟨[], []⟩).ok = false ∧
    c2Env.folderExists = true ∧ c2Env.lockOk = true ∧
    (walkFiles false [] c2Env.files).1 ≠ [] := by decide

/-- **C2 (amended)** — per-file failure isolation applies to the per-file
reading/extraction phase: a file whose extraction raises contributes
nothing and the walk's collected texts are exactly those of the remaining
files.  Chunking and embedding happen in a single batch under the lock,
so `build_vector_index` succeeds iff ML libraries are available, the
folder exists, some non-blank text was collected, the lock is acquired,
and the batched embed/add succeeds — failure is reported in each other
case, not only walk or lock errors. -/
theorem c2_per_file_isolation_and_failure_conditions :
    (∀ (force : Bool) (cache : List (String × String))
        (pre post : List FileInfo) (bad : FileInfo),
        bad.extract = .raises →
        (walkFiles force cache (pre ++ bad :: post)).1 =
          (walkFiles force cache (pre ++ post)).1) ∧
    (∀ (env : BuildEnv) (force : Bool) (init : StoreState),
        (build_vector_index env force init).ok = true ↔
          (env.mlAvailable = true ∧ env.folderExists = true ∧
           (walkFiles force (if force then [] else init.cache) env.files).1 ≠ [] ∧
           env.lockOk = true ∧ env.addOk = true)) := by
  constructor
  · intro force cache pre post bad hbad
    induction pre with
    | nil =>
      simp only [List.nil_append]
      rw [walkFiles]
      by_cases hskip : force = false ∧ getHash cache bad.path = bad.hash
      · rw [if_pos hskip]
      · rw [if_neg hskip, hbad]
    | cons p pre ih =>
      simp only [List.cons_append]
      rw [walkFiles, walkFiles]
      by_cases hskip : force = false ∧ getHash cache p.path = p.hash
      · rw [if_pos hskip, if_pos hskip]
        exact ih
      · rw [if_neg hskip, if_neg hskip]
        cases p.extract with
        | raises => simpa using ih
        | skipped => simpa using ih
        | content c => simp only [ih]
  · intro env force init
    unfold build_vector_index
    by_cases hml : env.mlAvailable = false
    · rw [if_pos hml]
      simp [hml]
    · rw [if_neg hml]
      simp only [Bool.not_eq_false] at hml
      by_cases hfold : env.folderExists = false
      · rw [if_pos hfold]
        simp [hfold]
      · rw [if_neg hfold]
        simp only [Bool.not_eq_false] at hfold
        have hcache :
            (if force then
              ({ docs := if env.resetOk then [] else init.docs, cache := [] } :
                StoreState)
            else init).cache = (if force then [] else init.cache) := by
          cases force <;> simp
        rw [hcache]
        by_cases hempty : (walkFiles force (if force then [] else init.cache)
            env.files).1.isEmpty = true
        · rw [if_pos hempty]
          simp only [List.isEmpty_iff] at hempty
          simp [hml, hfold, hempty]
        · rw [if_neg hempty]
          simp only [List.isEmpty_iff] at hempty
          by_cases hlock : env.lockOk = false
          · rw [if_pos hlock]
            simp [hlock]
          · rw [if_neg hlock]
            simp only [Bool.not_eq_false] at hlock
            by_cases hadd : env.addOk = true
            · rw [if_pos hadd]
              simp [hml, hfold, hempty, hlock, hadd]
            · rw [if_neg hadd]
              simp [hml, hfold, hempty, hlock, hadd]

/-- Witness for the amended C2 at concrete inputs: a raising file between
two good ones contributes nothing, and the success characterization holds
on `c1Env`. -/
theorem c2_per_file_isolation_witness :
    ((walkFiles false []
        ([⟨"g1.txt", "h1", .content "one"⟩] ++
          ⟨"bad.pdf", "h2", .raises⟩ :: [⟨"g2.txt", "h3", .content "two"⟩])).1 =
      (walkFiles false []
        ([⟨"g1.txt", "h1", .content "one"⟩] ++
          [⟨"g2.txt", "h3", .content "two"⟩])).1) ∧
    ((build_vector_index c1Env false ⟨[], []⟩).ok = true ↔
      (c1Env.mlAvailable = true ∧ c1Env.folderExists = true ∧
       (walkFiles false (if false then [] else ([] : List (String × String)))
          c1Env.files).1 ≠ [] ∧
       c1Env.lockOk = true ∧ c1Env.addOk = true)) :=
  ⟨c2_per_file_isolation_and_failure_conditions.1 false []
      [⟨"g1.txt", "h1", .content "one"⟩] [⟨"g2.txt", "h3", .content "two"⟩]
      ⟨"bad.pdf", "h2", .raises⟩ rfl,
    c2_per_file_isolation_and_failure_conditions.2 c1Env false ⟨[], []⟩⟩

/-- A force-rebuild invocation on a missing folder over a nonempty store. -/
def c3Env : BuildEnv :=
  { mlAvailable := true, folderExists := false, files := [],
    resetOk := true, lockOk := true, addOk := true }

/-- **C3 counterexample** — the claim quantifies over *any* `force_rebuild`
value.  With `force_rebuild = true` the collection reset and the cache
clear happen *before* the root-path check, so an invocation that fails at
job level because the root path is missing has already wiped the store:
the store goes from one document (and one cache entry) to empty. -/
theorem c3_force_rebuild_mutates_before_failure :
    build_vector_index c3Env true ⟨["olddoc"], [("p", "h")]⟩ =
      ⟨false, 0, ⟨[], []⟩⟩ ∧
    (⟨["olddoc"], [("p", "h")]⟩ : StoreState) ≠ ⟨[], []⟩ := by decide

/-- **C3 (amended)** — for `force_rebuild = false`, any invocation that
fails because the root path is missing or the lock cannot be acquired
leaves the Vector Index Store and the persisted cache exactly as they
were: no mutation is attempted.  (With `force_rebuild = true` the
collection reset and cache clear precede these checks, so they are not
rolled back — but still nothing is added under the lock.) -/
theorem c3_no_mutation_on_failure_without_force (env : BuildEnv)
    (init : StoreState)
    (h : env.folderExists = false ∨ env.lockOk = false) :
    (build_vector_index env false init).ok = false ∧
    (build_vector_index env false init).state = init := by
  unfold build_vector_index
  by_cases hml : env.mlAvailable = false
  · rw [if_pos hml]; exact ⟨rfl, rfl⟩
  · rw [if_neg hml]
    simp only [Bool.false_eq_true, if_false]
    rcases h with hfold | hlock
    · rw [if_pos hfold]; exact ⟨rfl, rfl⟩
    · by_cases hfold : env.folderExists = false
      · rw [if_pos hfold]; exact ⟨rfl, rfl⟩
      · rw [if_neg hfold]
        by_cases hempty : (walkFiles false init.cache env.files).1.isEmpty = true
        · rw [if_pos hempty]; exact ⟨rfl, rfl⟩
        · rw [if_neg hempty, if_pos hlock]; exact ⟨rfl, rfl⟩

/-- Witness for the amended C3: a lock timeout on an otherwise healthy
run leaves the nonempty initial state untouched. -/
theorem c3_no_mutation_witness :
    (build_vector_index
        { mlAvailable := true, folderExists := true,
          files := [{ path := "y.txt", hash := "h", extract := .content "y" }],
          resetOk := true, lockOk := false, addOk := true }
        false ⟨["keep"], [("q", "qh")]⟩).ok = false ∧
    (build_vector_index
        { mlAvailable := true, folderExists := true,
          files := [{ path := "y.txt", hash := "h", extract := .content "y" }],
          resetOk := true, lockOk := false, addOk := true }
        false ⟨["keep"], [("q", "qh")]⟩).state = ⟨["keep"], [("q", "qh")]⟩ :=
  c3_no_mutation_on_failure_without_force _ _ (Or.inr rfl)

/-! ### `ChromaVectorStore.add_documents` — the recreate-and-retry loop -/

/-- Outcome of one `collection.add` call: success, an exception whose
message contains `does not exist`/`not found` (missing collection), or
any other exception. -/
inductive AddAttempt where
  | ok
  | missingErr
  | otherErr
deriving DecidableEq

/-- Environment for one `add_documents` call: the outcome of the i-th
`collection.add` attempt and whether the i-th `create_collection`
(recreation) call succeeds. -/
structure AddEnv where
  attempts : Nat → AddAttempt
  recreates : Nat → Bool

/-- Result of the `for attempt in range(2)` loop, remembering how many
times the collection was successfully recreated: `raisedAdd i n`
re-raises the add error of attempt `i`, `raisedRecreate n` re-raises a
failed recreation, `raisedRuntime n` is the final `RuntimeError` after
the loop is exhausted. -/
inductive AddResult where
  | success (recreations : Nat)
  | raisedAdd (attempt recreations : Nat)
  | raisedRecreate (recreations : Nat)
  | raisedRuntime (recreations : Nat)
deriving DecidableEq

/-- The retry loop of `add_documents` (`for attempt in range(2)`): try
the add; on a missing-collection error recreate and continue, on any
other error re-raise; a `RuntimeError` surfaces if both attempts fail
with missing-collection errors. -/
def addDocumentsRetry (env : AddEnv) : AddResult :=
  match env.attempts 0 with
  | .ok => .success 0
  | .otherErr => .raisedAdd 0 0
  | .missingErr =>
    if env.recreates 0 then
      match env.attempts 1 with
      | .ok => .success 1
      | .otherErr => .raisedAdd 1 1
      | .missingErr =>
        if env.recreates 1 then .raisedRuntime 2 else .raisedRecreate 1
    else .raisedRecreate 0

/-- Number of successful collection recreations recorded in a result. -/
def AddResult.recreations : AddResult → Nat
  | .success n => n
  | .raisedAdd _ n => n
  | .raisedRecreate n => n
  | .raisedRuntime n => n

/-- **C7 counterexample** — the claim says the collection is recreated
*exactly once* before an error surfaces.  When both adds fail with
missing-collection errors and both recreations succeed, the loop
recreates the collection twice and then raises a `RuntimeError`. -/
theorem c7_recreated_twice :
    addDocumentsRetry ⟨fun _ => .missingErr, fun _ => true⟩ =
      .raisedRuntime 2 ∧
    (addDocumentsRetry ⟨fun _ => .missingErr, fun _ => true⟩).recreations ≠ 1 :=
  ⟨rfl, by decide⟩

/-- **C7 (amended)** — full behaviour of the retry loop: a successful
first add needs no recreation; a non-missing first failure propagates
with no recreation; a failed recreation propagates; after one successful
recreation the add is retried once — success and non-missing failure
surface after exactly one recreation, while a second missing-collection
failure causes a *second* recreation and surfaces a `RuntimeError`
without any further retry. -/
theorem c7_missing_collection_recovery (env : AddEnv) :
    (env.attempts 0 = .ok → addDocumentsRetry env = .success 0) ∧
    (env.attempts 0 = .otherErr → addDocumentsRetry env = .raisedAdd 0 0) ∧
    (env.attempts 0 = .missingErr → env.recreates 0 = false →
      addDocumentsRetry env = .raisedRecreate 0) ∧
    (env.attempts 0 = .missingErr → env.recreates 0 = true →
      env.attempts 1 = .ok → addDocumentsRetry env = .success 1) ∧
    (env.attempts 0 = .missingErr → env.recreates 0 = true →
      env.attempts 1 = .otherErr → addDocumentsRetry env = .raisedAdd 1 1) ∧
    (env.attempts 0 = .missingErr → env.recreates 0 = true →
      env.attempts 1 = .missingErr → env.recreates 1 = true →
      addDocumentsRetry env = .raisedRuntime 2) := by
  refine ⟨?_, ?_, ?_, ?_, ?_, ?_⟩
  · intro h0; simp [addDocumentsRetry, h0]
  · intro h0; simp [addDocumentsRetry, h0]
  · intro h0 hr; simp [addDocumentsRetry, h0, hr]
  · intro h0 hr h1; simp [addDocumentsRetry, h0, hr, h1]
  · intro h0 hr h1; simp [addDocumentsRetry, h0, hr, h1]
  · intro h0 hr0 h1 hr1; simp [addDocumentsRetry, h0, hr0, h1, hr1]

/-- Witness for the amended C7: a missing-collection failure followed by
a successful recreation and a successful retry completes with exactly one
recreation. -/
theorem c7_missing_collection_recovery_witness :
    addDocumentsRetry
      ⟨fun i => if i = 0 then .missingErr else .ok, fun _ => true⟩ =
      .success 1 :=
  (c7_missing_collection_recovery
    ⟨fun i => if i = 0 then .missingErr else .ok, fun _ => true⟩).2.2.2.1
    rfl rfl rfl

/-! ### Query-time re-ranking (`get_relevant_context`) -/

/-- One candidate dict returned by `similarity_search`: chunk text (as a
character list), metadata, similarity score `1 - distance` (only its
ordering matters to the ranking, so it is modelled as an integer), and
the 1-based rank assigned by the vector store. -/
structure Candidate where
  text : List Char
  meta : String
  sim : Int
  rank : Nat
deriving DecidableEq

/-- Python's `needle in haystack` substring test. -/
def pyIn (needle : List Char) : List Char → Bool
  | [] => needle.isEmpty
  | c :: rest => needle.isPrefixOf (c :: rest) || pyIn needle rest

def lowerChars (l : List Char) : List Char := l.map Char.toLower

/-- `keyword_hits = sum(1 for t in corrected_tokens if t in text_lower)`:
the number of corrected-query tokens (with multiplicity, already
lowercased by the caller) that occur as a substring of the lowercased
candidate text — each token contributes at most 1 however often it
occurs. -/
def keywordHits (tokens : List (List Char)) (text : List Char) : Nat :=
  (tokens.filter (fun t => pyIn t (lowerChars text))).length

/-- Modelled from the spec: "count case-insensitive occurrences of each
corrected-query token in the candidate text" — the total number of
occurrence positions of every token in the text. -/
def specKeywordOccurrences (tokens : List (List Char)) (text : List Char) :
    Nat :=
  (tokens.map (fun t =>
    (List.range ((lowerChars text).length + 1)).countP
      (fun i => t.isPrefixOf ((lowerChars text).drop i)))).sum

/-- Strict descending comparison on the sort key
`(similarity_score, keyword_hits)`: Python's tuple `>`. -/
def keyGT (a b : Int × Nat) : Bool :=
  decide (b.1 < a.1) || (decide (a.1 = b.1) && decide (b.2 < a.2))

/-- Stable insertion for a descending sort: `x` goes before the first
element whose key is not strictly greater than `x`'s. -/
def insertDesc (key : Candidate → Int × Nat) (x : Candidate) :
    List Candidate → List Candidate
  | [] => [x]
  | y :: ys =>
    if keyGT (key y) (key x) then y :: insertDesc key x ys else x :: y :: ys

/-- Python's stable `list.sort(key=..., reverse=True)`: the unique
descending reordering that keeps equal-key elements in input order
(stable insertion sort computes exactly it). -/
def sortDesc (key : Candidate → Int × Nat) : List Candidate → List Candidate
  | [] => []
  | x :: xs => insertDesc key x (sortDesc key xs)

/-- The re-rank step of `get_relevant_context`: attach keyword hits and
sort descending by `(similarity_score, keyword_hits)`. -/
def rerank (tokens : List (List Char)) (results : List Candidate) :
    List Candidate :=
  sortDesc (fun r => (r.sim, keywordHits tokens r.text)) results

theorem keyGT_asymm (a b : Int × Nat) (h : keyGT a b = true) :
    keyGT b a = false := by
  rw [← Bool.not_eq_true]
  simp only [keyGT, Bool.or_eq_true, Bool.and_eq_true, decide_eq_true_eq] at h ⊢
  omega

theorem keyGT_neg_trans (a b c : Int × Nat) (h1 : keyGT b a = false)
    (h2 : keyGT c b = false) : keyGT c a = false := by
  rw [← Bool.not_eq_true] at h1 h2 ⊢
  simp only [keyGT, Bool.or_eq_true, Bool.and_eq_true, decide_eq_true_eq]
    at h1 h2 ⊢
  omega

theorem mem_insertDesc (key : Candidate → Int × Nat) (x z : Candidate) :
    ∀ l : List Candidate, z ∈ insertDesc key x l ↔ z = x ∨ z ∈ l := by
  intro l
  induction l with
  | nil => simp [insertDesc]
  | cons y ys ih =>
    rw [insertDesc]
    by_cases hk : keyGT (key y) (key x) = true
    · rw [if_pos hk]
      simp only [List.mem_cons, ih]
      tauto
    · rw [if_neg hk]
      simp only [List.mem_cons]

theorem pairwise_insertDesc (key : Candidate → Int × Nat) (x : Candidate)
    (l : List Candidate)
    (h : l.Pairwise (fun u v => keyGT (key v) (key u) = false)) :
    (insertDesc key x l).Pairwise (fun u v => keyGT (key v) (key u) = false) := by
  induction l with
  | nil => simp [insertDesc]
  | cons y ys ih =>
    rw [List.pairwise_cons] at h
    obtain ⟨hy, hys⟩ := h
    rw [insertDesc]
    by_cases hk : keyGT (key y) (key x) = true
    · rw [if_pos hk]
      rw [List.pairwise_cons]
      refine ⟨?_, ih hys⟩
      intro z hz
      rcases (mem_insertDesc key x z ys).mp hz with rfl | hz'
      · exact keyGT_asymm _ _ hk
      · exact hy z hz'
    · rw [if_neg hk]
      rw [List.pairwise_cons]
      refine ⟨?_, List.pairwise_cons.mpr ⟨hy, hys⟩⟩
      intro z hz
      rcases List.mem_cons.mp hz with rfl | hz'
      · exact Bool.not_eq_true _ ▸ hk
      · exact keyGT_neg_trans _ _ _ (Bool.not_eq_true _ ▸ hk) (hy z hz')

theorem pairwise_sortDesc (key : Candidate → Int × Nat) (l : List Candidate) :
    (sortDesc key l).Pairwise (fun u v => keyGT (key v) (key u) = false) := by
  induction l with
  | nil => simp [sortDesc]
  | cons x xs ih => exact pairwise_insertDesc key x _ ih

theorem insertDesc_perm (key : Candidate → Int × Nat) (x : Candidate) :
    ∀ l : List Candidate, (insertDesc key x l).Perm (x :: l) := by
  intro l
  induction l with
  | nil => simp [insertDesc]
  | cons y ys ih =>
    rw [insertDesc]
    by_cases hk : keyGT (key y) (key x) = true
    · rw [if_pos hk]
      exact (ih.cons y).trans (List.Perm.swap x y ys)
    · rw [if_neg hk]

theorem sortDesc_perm (key : Candidate → Int × Nat) :
    ∀ l : List Candidate, (sortDesc key l).Perm l := by
  intro l
  induction l with
  | nil => exact List.Perm.refl _
  | cons x xs ih => exact (insertDesc_perm key x _).trans (ih.cons x)

/-! ### Claim C8 -/

/-- **C8 counterexample** — the claim says the keyword-hit count equals
the count of *occurrences* of each corrected-query token, and that with
equal similarity the candidate with more occurrences ranks first.  The
code counts each token at most once (`1 for t in tokens if t in text`):
with query tokens `cat dog`, candidate `A` = `"cat cat cat"` has 3
occurrences but only 1 hit, candidate `B` = `"cat dog"` has 2 occurrences
and 2 hits, so at equal similarity the code ranks `B` first while the
claim demands `A` first. -/
theorem c8_hits_are_not_occurrences :
    (⟨"cat cat cat".toList, "", 5, 1⟩ : Candidate).sim =
      (⟨"cat dog".toList, "", 5, 2⟩ : Candidate).sim ∧
    specKeywordOccurrences ["cat".toList, "dog".toList] "cat cat cat".toList = 3 ∧
    specKeywordOccurrences ["cat".toList, "dog".toList] "cat dog".toList = 2 ∧
    keywordHits ["cat".toList, "dog".toList] "cat cat cat".toList = 1 ∧
    keywordHits ["cat".toList, "dog".toList] "cat dog".toList = 2 ∧
    rerank ["cat".toList, "dog".toList]
        [⟨"cat cat cat".toList, "", 5, 1⟩, ⟨"cat dog".toList, "", 5, 2⟩] =
      [⟨"cat dog".toList, "", 5, 2⟩, ⟨"cat cat cat".toList, "", 5, 1⟩] := by
  decide

/-- **C8 (amended)** — each candidate's keyword-hit count is the number
of corrected-query tokens (with multiplicity) that occur at least once,
case-insensitively, in the candidate text; candidates are sorted
descending by `(similarity_score, keyword_hits)`, so of two candidates
with equal similarity the one whose text contains more of the
corrected-query tokens ranks first. -/
theorem c8_keyword_tiebreak (tokens : List (List Char))
    (results : List Candidate) (i j : Nat)
    (hi : i < (rerank tokens results).length)
    (hj : j < (rerank tokens results).length)
    (hsim : ((rerank tokens results).get ⟨i, hi⟩).sim =
      ((rerank tokens results).get ⟨j, hj⟩).sim)
    (hhits : keywordHits tokens (((rerank tokens results).get ⟨j, hj⟩).text) <
      keywordHits tokens (((rerank tokens results).get ⟨i, hi⟩).text)) :
    i < j := by
  rcases Nat.lt_trichotomy i j with h | h | h
  · exact h
  · subst h
    exact absurd hhits (lt_irrefl _)
  · exfalso
    have hpw : (rerank tokens results).Pairwise
        (fun u v => keyGT (v.sim, keywordHits tokens v.text)
          (u.sim, keywordHits tokens u.text) = false) :=
      pairwise_sortDesc (fun r => (r.sim, keywordHits tokens r.text)) results
    have h2 := (List.pairwise_iff_getElem.mp hpw) j i hj hi h
    rw [← Bool.not_eq_true] at h2
    apply h2
    simp only [keyGT, Bool.or_eq_true, Bool.and_eq_true, decide_eq_true_eq]
    refine Or.inr ⟨?_, ?_⟩
    · rw [List.get_eq_getElem, List.get_eq_getElem] at hsim
      exact hsim
    · rw [List.get_eq_getElem, List.get_eq_getElem] at hhits
      exact hhits

/-- Witness for the amended C8 at a concrete ranking: texts `"x"` (1 hit)
and `"xy"` (2 hits) at equal similarity; the 2-hit candidate lands at
index 0, the 1-hit one at index 1. -/
theorem c8_keyword_tiebreak_witness :
    rerank [['x'], ['y']]
        [⟨['x'], "", 1, 1⟩, ⟨['x', 'y'], "", 1, 2⟩] =
      [⟨['x', 'y'], "", 1, 2⟩, ⟨['x'], "", 1, 1⟩] ∧ (0 : Nat) < 1 :=
  ⟨by decide,
    c8_keyword_tiebreak [['x'], ['y']]
      [⟨['x'], "", 1, 1⟩, ⟨['x', 'y'], "", 1, 2⟩] 0 1
      (by decide) (by decide) (by decide) (by decide)⟩

/-! ### `get_relevant_context` -/

/-- A formatted result dict of `get_relevant_context`:
`{content, metadata, score, rank}`. -/
structure FormattedResult where
  content : List Char
  meta : String
  score : Int
  rank : Nat
deriving DecidableEq

/-- The final formatting step of `get_relevant_context`. -/
def format (c : Candidate) : FormattedResult := ⟨c.text, c.meta, c.sim, c.rank⟩

/-- Environment fixing the I/O outcomes of one `get_relevant_context`
call: vector-store construction, spell correction (yielding the
lowercased corrected-query tokens), query embedding, and the underlying
`collection.query` responses for the retrieval query and for the
original-query fallback, per requested `k`. -/
structure RetrievalEnv where
  initE : Except String Unit
  spellTokensE : Except String (List (List Char))
  encodeE : Except String Unit
  queryE : Nat → Except String (List Candidate)
  queryFbE : Nat → Except String (List Candidate)

/-- `ChromaVectorStore.similarity_search`: `model.encode` runs *outside*
the `try`, so its exception propagates; an exception in
`collection.query` is caught and yields `[]`. -/
def similaritySearchE (enc : Except String Unit)
    (q : Nat → Except String (List Candidate)) (k : Nat) :
    Except String (List Candidate) :=
  match enc with
  | .error e => .error e
  | .ok _ =>
    match q k with
    | .error _ => .ok []
    | .ok l => .ok l

/-- `top_k = top_k or max(max_results * 4, 10)` — Python `or` treats both
`None` and `0` as falsy. -/
def topKOf (max_results : Nat) (top_k : Option Nat) : Nat :=
  match top_k with
  | some (t + 1) => t + 1
  | _ => max (max_results * 4) 10

/-- The body of `get_relevant_context` (everything inside its `try`):
construct the store, spell-correct, over-fetch `top_k` candidates, fall
back to the original query when the corrected query returns nothing,
re-rank by `(similarity_score, keyword_hits)`, truncate, and format. -/
def grcE (env : RetrievalEnv) (max_results : Nat) (top_k : Option Nat) :
    Except String (List FormattedResult) :=
  match env.initE with
  | .error e => .error e
  | .ok _ =>
    match env.spellTokensE with
    | .error e => .error e
    | .ok toks =>
      let k := topKOf max_results top_k
      match similaritySearchE env.encodeE env.queryE k with
      | .error e => .error e
      | .ok res =>
        match
          (if res = [] then similaritySearchE env.encodeE env.queryFbE k
           else .ok res) with
        | .error e => .error e
        | .ok res2 =>
          .ok (((rerank toks res2).take max_results).map format)

/-- `get_relevant_context`: the outer `try/except` returns the body's
result, or `[]` if any exception reaches it. -/
def get_relevant_context (env : RetrievalEnv) (max_results : Nat)
    (top_k : Option Nat) : List FormattedResult :=
  match grcE env max_results top_k with
  | .ok l => l
  | .error _ => []

/-! ### Claim C9 — retrieval monotonicity -/

theorem insertDesc_append (key : Candidate → Int × Nat) (x : Candidate)
    (A D : List Candidate) (h : ∀ d ∈ D, keyGT (key x) (key d) = true) :
    insertDesc key x (A ++ D) = insertDesc key x A ++ D := by
  induction A with
  | nil =>
    cases D with
    | nil => simp
    | cons d ds =>
      simp only [List.nil_append, insertDesc]
      rw [if_neg (by simp [keyGT_asymm _ _ (h d (by simp))])]
      rfl
  | cons a A ih =>
    simp only [List.cons_append, insertDesc, List.append_eq]
    by_cases hk : keyGT (key a) (key x) = true
    · rw [if_pos hk, if_pos hk, ih]
      rfl
    · rw [if_neg hk, if_neg hk]
      rfl

theorem sortDesc_append (key : Candidate → Int × Nat) (C D : List Candidate)
    (h : ∀ c ∈ C, ∀ d ∈ D, keyGT (key c) (key d) = true) :
    sortDesc key (C ++ D) = sortDesc key C ++ sortDesc key D := by
  induction C with
  | nil => simp [sortDesc]
  | cons c C ih =>
    simp only [List.cons_append, sortDesc, List.append_eq]
    rw [ih (fun c' hc' d hd => h c' (by simp [hc']) d hd)]
    rw [insertDesc_append key c _ _ (by
      intro d hd
      exact h c (by simp) d (((sortDesc_perm key D).mem_iff).mp hd))]

theorem mem_take_append (x : Candidate) (l l' : List Candidate)
    (m1 m2 : Nat) (hm : m1 ≤ m2) (hx : x ∈ l.take m1) :
    x ∈ (l ++ l').take m2 := by
  have h1 : x ∈ l.take m2 := by
    have ht : l.take m1 = (l.take m2).take m1 := by
      rw [List.take_take, min_eq_left hm]
    rw [ht] at hx
    exact List.take_subset _ _ hx
  rw [List.take_append_eq_append_take]
  exact List.mem_append_left _ h1

/-- Core monotonicity: if the shorter candidate list is a prefix of the
longer one and the longer one is strictly descending in similarity (no
ties), every candidate in the top `m1` of the re-ranked short list is in
the top `m2 ≥ m1` of the re-ranked long list. -/
theorem rerank_take_mono (toks : List (List Char)) (C1 C2 : List Candidate)
    (m1 m2 : Nat) (hm : m1 ≤ m2) (hpre : C1 <+: C2)
    (hsorted : C2.Pairwise (fun a b => b.sim < a.sim)) :
    ∀ x ∈ (rerank toks C1).take m1, x ∈ (rerank toks C2).take m2 := by
  obtain ⟨D, rfl⟩ := hpre
  intro x hx
  rw [List.pairwise_append] at hsorted
  obtain ⟨_, _, h12⟩ := hsorted
  have hgt : ∀ c ∈ C1, ∀ d ∈ D,
      keyGT (c.sim, keywordHits toks c.text)
        (d.sim, keywordHits toks d.text) = true := by
    intro c hc d hd
    have hlt := h12 c hc d hd
    simp only [keyGT, Bool.or_eq_true, Bool.and_eq_true, decide_eq_true_eq]
    omega
  show x ∈ (sortDesc (fun r => (r.sim, keywordHits toks r.text)) (C1 ++ D)).take m2
  rw [sortDesc_append _ _ _ hgt]
  exact mem_take_append x _ _ m1 m2 hm hx

/-- An environment in which every I/O action succeeds and the vector
store's response depends only on the requested `k` — "fixed vector-store
responses". -/
def pureEnv (resp respFb : Nat → List Candidate)
    (toks : List (List Char)) : RetrievalEnv :=
  { initE := .ok (), spellTokensE := .ok toks, encodeE := .ok (),
    queryE := fun k => .ok (resp k), queryFbE := fun k => .ok (respFb k) }

theorem grc_pureEnv (resp respFb : Nat → List Candidate)
    (toks : List (List Char)) (m : Nat) :
    get_relevant_context (pureEnv resp respFb toks) m none =
      ((rerank toks
          (if resp (max (m * 4) 10) = [] then respFb (max (m * 4) 10)
           else resp (max (m * 4) 10))).take m).map format := by
  by_cases hres : resp (max (m * 4) 10) = [] <;>
    simp [get_relevant_context, grcE, pureEnv, similaritySearchE, topKOf, hres]

/-- **C9** — retrieval monotonicity (stable prefix): with fixed
vector-store responses (the response for a smaller `k` is a prefix of the
response for a larger `k`, and it shrinks to nothing only if the larger
response does too), strictly descending similarity scores (the "no ties"
assumption), and a fixed query (fixed corrected tokens), every passage in
`get_relevant_context`'s result for `max_results = m1` also appears in
the result for `m2 > m1`. -/
theorem c9_retrieval_monotonicity (resp respFb : Nat → List Candidate)
    (toks : List (List Char)) (m1 m2 : Nat) (r : FormattedResult)
    (hm : m1 < m2)
    (hpre : resp (max (m1 * 4) 10) <+: resp (max (m2 * 4) 10))
    (hpreFb : respFb (max (m1 * 4) 10) <+: respFb (max (m2 * 4) 10))
    (hsorted : (resp (max (m2 * 4) 10)).Pairwise (fun a b => b.sim < a.sim))
    (hsortedFb : (respFb (max (m2 * 4) 10)).Pairwise (fun a b => b.sim < a.sim))
    (hempty : resp (max (m1 * 4) 10) = [] → resp (max (m2 * 4) 10) = [])
    (hr : r ∈ get_relevant_context (pureEnv resp respFb toks) m1 none) :
    r ∈ get_relevant_context (pureEnv resp respFb toks) m2 none := by
  rw [grc_pureEnv] at hr ⊢
  by_cases hres : resp (max (m1 * 4) 10) = []
  · have hres2 : resp (max (m2 * 4) 10) = [] := hempty hres
    rw [if_pos hres] at hr
    rw [if_pos hres2]
    rw [List.mem_map] at hr ⊢
    obtain ⟨x, hx, rfl⟩ := hr
    exact ⟨x, rerank_take_mono toks _ _ m1 m2 (le_of_lt hm) hpreFb hsortedFb
      x hx, rfl⟩
  · have hres2 : resp (max (m2 * 4) 10) ≠ [] := by
      intro h2
      rw [h2] at hpre
      exact hres (List.prefix_nil.mp hpre)
    rw [if_neg hres] at hr
    rw [if_neg hres2]
    rw [List.mem_map] at hr ⊢
    obtain ⟨x, hx, rfl⟩ := hr
    exact ⟨x, rerank_take_mono toks _ _ m1 m2 (le_of_lt hm) hpre hsorted
      x hx, rfl⟩

/-- A fixed two-candidate store response for the C9 witness. -/
def c9Resp : Nat → List Candidate :=
  fun _ => [⟨['a', 'a'], "", 9, 1⟩, ⟨['b', 'b'], "", 3, 2⟩]

/-- Witness for C9: the top-1 result for `max_results = 1` is still
present in the top-2 result for `max_results = 2`. -/
theorem c9_retrieval_monotonicity_witness :
    format ⟨['a', 'a'], "", 9, 1⟩ ∈
      get_relevant_context (pureEnv c9Resp c9Resp []) 2 none :=
  c9_retrieval_monotonicity c9Resp c9Resp [] 1 2 (format ⟨['a', 'a'], "", 9, 1⟩)
    (by decide) (List.prefix_refl _) (List.prefix_refl _)
    (by decide) (by decide) (by decide) (by decide)

/-! ### Claim C10 — retrieval never raises -/

/-- An environment whose primary `collection.query` raises while the
fallback query has a result. -/
def c10Env : RetrievalEnv :=
  { initE := .ok (), spellTokensE := .ok [], encodeE := .ok (),
    queryE := fun _ => .error "boom",
    queryFbE := fun _ => .ok [⟨['d', 'o', 'c'], "", 7, 1⟩] }

/-- **C10 counterexample** — the claim says any exception raised by the
underlying similarity search results in the *empty list*.  But an
exception in the primary `collection.query` is caught inside
`similarity_search` as an empty candidate list, which triggers the
original-query fallback: if that fallback returns candidates, the result
is non-empty. -/
theorem c10_query_error_not_empty :
    c10Env.queryE 10 = Except.error "boom" ∧
    get_relevant_context c10Env 1 none = [format ⟨['d', 'o', 'c'], "", 7, 1⟩] ∧
    get_relevant_context c10Env 1 none ≠ [] :=
  ⟨rfl, rfl, by decide⟩

/-- **C10 (amended)** — `get_relevant_context` is total (it always
returns a list, never propagating an exception): any exception that
reaches its outer handler (store construction, spell correction, query
embedding, the ranking step) yields `[]`, and an exception inside the
underlying `collection.query` is caught inside `similarity_search` as an
empty candidate list, so if both the primary and the fallback query
raise, the overall result is `[]` as well. -/
theorem c10_retrieval_never_raises (env : RetrievalEnv) (m : Nat)
    (tk : Option Nat) :
    (∀ e, grcE env m tk = Except.error e →
      get_relevant_context env m tk = []) ∧
    (∀ (t : List (List Char)) (e1 e2 : String),
      env.initE = .ok () → env.spellTokensE = .ok t → env.encodeE = .ok () →
      env.queryE (topKOf m tk) = .error e1 →
      env.queryFbE (topKOf m tk) = .error e2 →
      get_relevant_context env m tk = []) := by
  constructor
  · intro e he
    unfold get_relevant_context
    rw [he]
  · intro t e1 e2 hinit hspell henc hq hqf
    simp [get_relevant_context, grcE, similaritySearchE, hinit, hspell, henc,
      hq, hqf, rerank, sortDesc]

/-- An environment in which every stage of the retrieval pipeline
raises. -/
def c10WitnessEnv : RetrievalEnv :=
  { initE := .ok (), spellTokensE := .ok [], encodeE := .ok (),
    queryE := fun _ => .error "a", queryFbE := fun _ => .error "b" }

/-- Witness for the amended C10: both underlying queries raise and the
result is the empty list. -/
theorem c10_retrieval_never_raises_witness :
    get_relevant_context c10WitnessEnv 3 none = [] :=
  (c10_retrieval_never_raises c10WitnessEnv 3 none).2 [] "a" "b"
    rfl rfl rfl rfl rfl

end VectorStore
